import Mathlib

/-!
# Verification of the sphinx-tribes authentication core

Shallow embedding of the challenge-response authentication layer:
the signature engine and token codec of the `auth` package (pinned by the
repository's unit tests `TestSign`, `TestVerifyAndExtract`,
`TestVerifyTribeUUID`, `TestParseTokenString`, `TestIsFreePass`), and the
`Verify` / `Poll` challenge handlers of `db/store.go`.

Bytes are modelled as `Nat` values below 256; Go `[]byte` values that may be
`nil` are modelled as `Option (List Nat)` (`none` = nil slice, which Go
distinguishes from a zero-length slice in this code). Go `error` results are
modelled by the inductive `AuthErr` whose `errMessage` gives the exact Go
error strings asserted by the repository's tests.
-/

namespace SphinxAuth

/-- Error outcomes of the auth package, one constructor per distinct Go error
observed in the repository's tests. -/
inductive AuthErr : Type where
  /-- `base64.CorruptInputError(off)`: "illegal base64 data at input byte %d". -/
  | corruptInput (off : Nat) : AuthErr
  /-- "invalid signature (too short)" from `ParseTokenString`. -/
  | tooShort : AuthErr
  /-- "invalid compact signature size" from compact-signature recovery. -/
  | invalidCompactSigSize : AuthErr
  /-- "bad": nil message or nil signature given to `VerifyAndExtract`. -/
  | badInput : AuthErr
  /-- "no msg": nil message given to `Sign`. -/
  | noMsg : AuthErr
  /-- "too early": token timestamp lies in the future. -/
  | tooEarly : AuthErr
  /-- "too late": token timestamp is more than 300 seconds old. -/
  | tooLate : AuthErr
  deriving DecidableEq, Repr

/-- The Go error string carried by each `AuthErr`, exactly as the
repository's tests assert them. -/
def errMessage : AuthErr → String
  | .corruptInput off => "illegal base64 data at input byte " ++ toString off
  | .tooShort => "invalid signature (too short)"
  | .invalidCompactSigSize => "invalid compact signature size"
  | .badInput => "bad"
  | .noMsg => "no msg"
  | .tooEarly => "too early"
  | .tooLate => "too late"

/-- A list of `Nat` is a byte string when every entry is below 256. -/
def bytesOk (l : List Nat) : Prop := ∀ b ∈ l, b < 256

instance (l : List Nat) : Decidable (bytesOk l) := by
  unfold bytesOk; infer_instance

/-! ## URL-safe base64 (Go `encoding/base64.URLEncoding`)

Concrete model of the padded URL-safe base64 codec used by
`ParseTokenString` and `VerifyTribeUUID`. The decoder works on 4-character
quantums and reports `CorruptInputError` offsets the way Go's strict padded
decoder does on the inputs pinned by `TestParseTokenString`. -/

/-- The URL-safe base64 alphabet. -/
def b64Alphabet : List Char :=
  "ABCDEFGHIJKLMNOPQRSTUVWXYZabcdefghijklmnopqrstuvwxyz0123456789-_".toList

/-- Sextet value to base64 character. -/
def b64Char (n : Nat) : Char := b64Alphabet.getD n '?'

/-- Base64 character to sextet value; `none` for characters outside the
alphabet (including the padding character). -/
def b64CharVal (c : Char) : Option Nat :=
  let i := b64Alphabet.indexOf c
  if i < 64 then some i else none

/-- Encode a byte string as padded URL-safe base64 characters. -/
def b64EncodeBytes : List Nat → List Char
  | [] => []
  | [b0] => [b64Char (b0 / 4), b64Char (b0 % 4 * 16), '=', '=']
  | [b0, b1] => [b64Char (b0 / 4), b64Char (b0 % 4 * 16 + b1 / 16), b64Char (b1 % 16 * 4), '=']
  | b0 :: b1 :: b2 :: rest =>
      b64Char (b0 / 4) :: b64Char (b0 % 4 * 16 + b1 / 16) ::
      b64Char (b1 % 16 * 4 + b2 / 64) :: b64Char (b2 % 64) :: b64EncodeBytes rest

/-- Encode a byte string as a padded URL-safe base64 string. -/
def b64EncodeString (l : List Nat) : String := String.mk (b64EncodeBytes l)

/-- Decode padded URL-safe base64, processing 4-character quantums starting
at absolute input offset `pos`; errors carry the corrupt-input offset. -/
def b64DecodeQuads (pos : Nat) : List Char → Except AuthErr (List Nat)
  | [] => .ok []
  | c0 :: c1 :: c2 :: c3 :: rest =>
    match b64CharVal c0 with
    | none => .error (.corruptInput pos)
    | some v0 =>
      match b64CharVal c1 with
      | none => .error (.corruptInput (pos + 1))
      | some v1 =>
        if c2 = '=' then
          if c3 = '=' ∧ rest = [] then .ok [v0 * 4 + v1 / 16]
          else .error (.corruptInput (pos + 2))
        else
          match b64CharVal c2 with
          | none => .error (.corruptInput (pos + 2))
          | some v2 =>
            if c3 = '=' then
              if rest = [] then .ok [v0 * 4 + v1 / 16, v1 % 16 * 16 + v2 / 4]
              else .error (.corruptInput (pos + 3))
            else
              match b64CharVal c3 with
              | none => .error (.corruptInput (pos + 3))
              | some v3 =>
                match b64DecodeQuads (pos + 4) rest with
                | .error e => .error e
                | .ok bs =>
                    .ok ((v0 * 4 + v1 / 16) :: (v1 % 16 * 16 + v2 / 4) ::
                         (v2 % 4 * 64 + v3) :: bs)
  | _ => .error (.corruptInput pos)

/-- Decode a padded URL-safe base64 character list from offset 0. -/
def b64DecodeChars (l : List Char) : Except AuthErr (List Nat) := b64DecodeQuads 0 l

/-- Every sextet below 64 maps to its own alphabet character and back. -/
theorem b64CharVal_b64Char : ∀ s, s < 64 → b64CharVal (b64Char s) = some s := by
  decide

/-- No alphabet character is the padding character. -/
theorem b64Char_ne_pad : ∀ s, s < 64 → b64Char s ≠ '=' := by
  decide

/-- No alphabet character is the separator character stripped by the token
parser. -/
theorem b64Char_ne_dot : ∀ s, s < 64 → b64Char s ≠ '.' := by
  decide

/-- Decoding inverts encoding on byte strings, from any starting offset. -/
theorem b64DecodeQuads_b64EncodeBytes (l : List Nat) (h : bytesOk l) (pos : Nat) :
    b64DecodeQuads pos (b64EncodeBytes l) = .ok l := by
  induction l using b64EncodeBytes.induct generalizing pos with
  | case1 => rfl
  | case2 b0 =>
    have hb0 : b0 < 256 := h b0 (by simp)
    have h0 : b0 / 4 < 64 := by omega
    have h1 : b0 % 4 * 16 < 64 := by omega
    simp only [b64EncodeBytes, b64DecodeQuads, b64CharVal_b64Char _ h0,
      b64CharVal_b64Char _ h1, b64Char_ne_pad _ h1, and_self, if_true,
      ne_eq, not_false_eq_true, if_neg, if_pos, Except.ok.injEq,
      List.cons.injEq, and_true]
    omega
  | case3 b0 b1 =>
    have hb0 : b0 < 256 := h b0 (by simp)
    have hb1 : b1 < 256 := h b1 (by simp)
    have h0 : b0 / 4 < 64 := by omega
    have h1 : b0 % 4 * 16 + b1 / 16 < 64 := by omega
    have h2 : b1 % 16 * 4 < 64 := by omega
    simp only [b64EncodeBytes, b64DecodeQuads, b64CharVal_b64Char _ h0,
      b64CharVal_b64Char _ h1, b64CharVal_b64Char _ h2, b64Char_ne_pad _ h1,
      b64Char_ne_pad _ h2, ne_eq, not_false_eq_true, if_neg, if_pos,
      if_true, Except.ok.injEq, List.cons.injEq, and_true]
    omega
  | case4 b0 b1 b2 rest ih =>
    have hb0 : b0 < 256 := h b0 (by simp)
    have hb1 : b1 < 256 := h b1 (by simp)
    have hb2 : b2 < 256 := h b2 (by simp)
    have hrest : bytesOk rest := fun b hb => h b (by simp [hb])
    have h0 : b0 / 4 < 64 := by omega
    have h1 : b0 % 4 * 16 + b1 / 16 < 64 := by omega
    have h2 : b1 % 16 * 4 + b2 / 64 < 64 := by omega
    have h3 : b2 % 64 < 64 := by omega
    simp only [b64EncodeBytes, b64DecodeQuads, b64CharVal_b64Char _ h0,
      b64CharVal_b64Char _ h1, b64CharVal_b64Char _ h2, b64CharVal_b64Char _ h3,
      b64Char_ne_pad _ h2, b64Char_ne_pad _ h3, ne_eq, not_false_eq_true,
      if_neg, ih hrest (pos + 4), Except.ok.injEq, List.cons.injEq, and_true]
    omega

/-! ## Big-endian 32-bit timestamps (Go `encoding/binary.BigEndian`) -/

/-- `binary.BigEndian.Uint32` over the first four bytes of a byte string. -/
def beUint32 : List Nat → Nat
  | b0 :: b1 :: b2 :: b3 :: _ => ((b0 * 256 + b1) * 256 + b2) * 256 + b3
  | _ => 0

/-- `binary.BigEndian.PutUint32`: the four big-endian bytes of `n`. -/
def putUint32 (n : Nat) : List Nat :=
  [n / 16777216 % 256, n / 65536 % 256, n / 256 % 256, n % 256]

theorem beUint32_putUint32 (n : Nat) (h : n < 4294967296) :
    beUint32 (putUint32 n) = n := by
  simp only [putUint32, beUint32]
  omega

theorem bytesOk_putUint32 (n : Nat) : bytesOk (putUint32 n) := by
  intro b hb
  simp only [putUint32, List.mem_cons, List.not_mem_nil, or_false] at hb
  rcases hb with h | h | h | h <;> omega

/-! ## Signature engine

Modelled from the spec: the `auth` package's signature engine
(`signedMsgPrefix`, `chainhash.DoubleHashB`, `btcec` keypairs and the
compact recoverable signature scheme `SignCompact`/`RecoverCompact`) is not
part of the sources under review, so the elliptic-curve primitives are
modelled as an idealized recoverable-signature scheme satisfying the
contract the spec states: a compact signature is 65 bytes (1 recovery
header byte + 64 signature bytes), and recovery of a well-sized signature
yields exactly the signer's compressed public key; recovery of a signature
that is not exactly 65 bytes fails with `invalid compact signature size`.
The surrounding byte-level control flow of `Sign`, `VerifyAndExtract` and
`VerifyTribeUUID` follows the spec refined by the exact error strings the
repository's tests (`TestSign`, `TestVerifyAndExtract`,
`TestVerifyTribeUUID`) assert. -/

/-- Modelled from the spec: the fixed message-prefix constant prepended to
every signed payload. -/
def signedMsgPrefix : List Nat := "Lightning Signed Message:".toList.map Char.toNat

/-- Modelled from the spec: `chainhash.DoubleHashB`, the double-hash digest.
Stand-in executable 32-byte digest; only its length and byte-ness matter to
the claims. -/
def doubleHashB (m : List Nat) : List Nat :=
  (List.range 32).map fun i => m.foldl (fun a b => (a * 131 + b + 7) % 256) i

theorem length_doubleHashB (m : List Nat) : (doubleHashB m).length = 32 := by
  simp [doubleHashB]

theorem hashFold_lt (xs : List Nat) :
    ∀ a, a < 256 → xs.foldl (fun a b => (a * 131 + b + 7) % 256) a < 256 := by
  induction xs with
  | nil => intro a ha; simpa using ha
  | cons x xs ih =>
    intro a _
    rw [List.foldl_cons]
    exact ih _ (Nat.mod_lt _ (by norm_num))

theorem bytesOk_doubleHashB (m : List Nat) : bytesOk (doubleHashB m) := by
  intro b hb
  simp only [doubleHashB, List.mem_map, List.mem_range] at hb
  obtain ⟨i, hi, rfl⟩ := hb
  exact hashFold_lt m i (hi.trans (by norm_num))

/-- The `w` big-endian bytes of `n % 256^w`. -/
def natToBeBytes : Nat → Nat → List Nat
  | 0, _ => []
  | w + 1, n => n / 256 ^ w % 256 :: natToBeBytes w n

theorem length_natToBeBytes (w n : Nat) : (natToBeBytes w n).length = w := by
  induction w generalizing n with
  | zero => rfl
  | succ w ih => simp [natToBeBytes, ih]

theorem bytesOk_natToBeBytes (w n : Nat) : bytesOk (natToBeBytes w n) := by
  induction w generalizing n with
  | zero => intro b hb; simp [natToBeBytes] at hb
  | succ w ih =>
    intro b hb
    simp only [natToBeBytes, List.mem_cons] at hb
    rcases hb with h | h
    · omega
    · exact ih n b h

/-- Modelled from the spec: a secp256k1 keypair, reduced to the private
scalar from which the public key is derived. -/
structure KeyPair where
  priv : Nat
  deriving DecidableEq, Repr

/-- Modelled from the spec: the 33-byte compressed SEC encoding of the
keypair's public key (`PubKey().SerializeCompressed()`). -/
def pubKeyCompressed (k : KeyPair) : List Nat :=
  2 :: natToBeBytes 32 k.priv

theorem length_pubKeyCompressed (k : KeyPair) : (pubKeyCompressed k).length = 33 := by
  simp [pubKeyCompressed, length_natToBeBytes]

theorem bytesOk_pubKeyCompressed (k : KeyPair) : bytesOk (pubKeyCompressed k) := by
  intro b hb
  simp only [pubKeyCompressed, List.mem_cons] at hb
  rcases hb with h | h
  · omega
  · exact bytesOk_natToBeBytes 32 k.priv b h

/-- Modelled from the spec: `btcecdsa.SignCompact` — a 65-byte compact
recoverable signature: one recovery-header byte followed by 64 bytes from
which recovery reconstructs the signer's compressed public key. -/
def signCompact (k : KeyPair) (digest : List Nat) : List Nat :=
  31 :: (pubKeyCompressed k ++ (digest ++ List.replicate 31 0).take 31)

theorem length_signCompact (k : KeyPair) (digest : List Nat) :
    (signCompact k digest).length = 65 := by
  simp only [signCompact, List.length_cons, List.length_append,
    length_pubKeyCompressed, List.length_take, List.length_replicate]
  omega

theorem bytesOk_signCompact (k : KeyPair) (digest : List Nat)
    (hd : bytesOk digest) : bytesOk (signCompact k digest) := by
  intro b hb
  simp only [signCompact, List.mem_cons, List.mem_append] at hb
  rcases hb with h | h | h
  · omega
  · exact bytesOk_pubKeyCompressed k b h
  · have := List.mem_of_mem_take h
    simp only [List.mem_append, List.mem_replicate] at this
    rcases this with h' | h'
    · exact hd b h'
    · omega

/-- Modelled from the spec: `btcecdsa.RecoverCompact` — fails with
`invalid compact signature size` unless the signature is exactly 65 bytes;
otherwise recovers the compressed public key together with the
was-compressed flag. -/
def recoverCompact (sig digest : List Nat) : Except AuthErr (List Nat × Bool) :=
  if sig.length ≠ 65 then .error .invalidCompactSigSize
  else .ok ((sig.drop 1).take 33, true)

theorem recoverCompact_signCompact (k : KeyPair) (digest d : List Nat) :
    recoverCompact (signCompact k digest) d = .ok (pubKeyCompressed k, true) := by
  rw [recoverCompact, if_neg (by simp [length_signCompact])]
  simp only [signCompact, List.drop_succ_cons, List.drop_zero, Except.ok.injEq,
    Prod.mk.injEq, and_true]
  rw [← length_pubKeyCompressed k, List.take_left]

/-- Lowercase hex digit for a value below 16. -/
def hexDigit (n : Nat) : Char := "0123456789abcdef".toList.getD n '?'

/-- `hex.EncodeToString`: lowercase hex encoding of a byte string. -/
def hexEncodeToString (l : List Nat) : String :=
  String.mk (l.foldr (fun b acc => hexDigit (b / 16) :: hexDigit (b % 16) :: acc) [])

/-- Modelled from the spec: `auth.Sign` — fails with `no msg` on a nil
message (a zero-length message is valid); otherwise signs the double-hash
digest of `signedMsgPrefix ‖ msg` with a compact recoverable signature.
Pinned by `TestSign`. -/
def Sign (msg : Option (List Nat)) (k : KeyPair) :
    Option (List Nat) × Option AuthErr :=
  match msg with
  | none => (none, some .noMsg)
  | some m =>
      (some (signCompact k (doubleHashB (signedMsgPrefix ++ m))), none)

/-- Modelled from the spec: `auth.VerifyAndExtract` — fails with `bad` when
the message or the signature is nil; otherwise recomputes the digest of
`signedMsgPrefix ‖ msg` and recovers the public key from the compact
signature, returning its hex encoding and the valid flag. Pinned by
`TestVerifyAndExtract`. -/
def VerifyAndExtract (msg sig : Option (List Nat)) :
    String × Bool × Option AuthErr :=
  match msg, sig with
  | none, _ => ("", false, some .badInput)
  | _, none => ("", false, some .badInput)
  | some m, some s =>
    match recoverCompact s (doubleHashB (signedMsgPrefix ++ m)) with
    | .error e => ("", false, some e)
    | .ok (pub, valid) => (hexEncodeToString pub, valid, none)


/-! ## Token codec

Modelled from the spec: `auth.ParseTokenString` and `auth.VerifyTribeUUID`
are not part of the sources under review; the definitions follow the spec's
token-codec section refined by the exact outputs the repository's tests
(`TestParseTokenString`, `TestVerifyTribeUUID`) assert, including the
historical artifact that a token carrying the optional leading separator
returns the base64 text of the timestamp bytes in the second result slot. -/

/-- Whether the token starts with the optional separator character. -/
def hasSeparator (l : List Char) : Bool := l.headD ' ' == '.'

/-- The characters handed to the base64 decoder: the token with a single
optional leading separator stripped. -/
def tokenBody (l : List Char) : List Char :=
  if hasSeparator l then l.tail else l

/-- Core of `ParseTokenString` over the token's characters: strips a single
optional leading `'.'`, URL-safe base64-decodes the remainder (errors
propagate with their corrupt-input offset), rejects decoded content of four
or fewer bytes as too short, and otherwise splits off the four-byte
big-endian timestamp from the signature. -/
def parseTokenChars (l : List Char) : Except AuthErr (Nat × List Nat × List Nat) :=
  match b64DecodeChars (tokenBody l) with
  | .error e => .error e
  | .ok decoded =>
    if decoded.length ≤ 4 then .error .tooShort
    else
      let timeBuf := decoded.take 4
      let sigBuf := decoded.drop 4
      let ts := beUint32 timeBuf
      let timeOut := if hasSeparator l then (b64EncodeBytes timeBuf).map Char.toNat
                     else timeBuf
      .ok (ts, timeOut, sigBuf)

/-- Modelled from the spec: `auth.ParseTokenString` with the Go result shape
`(uint32, []byte, []byte, error)`; the byte slices are nil exactly on the
error paths. Pinned by `TestParseTokenString`. -/
def ParseTokenString (t : String) :
    Nat × Option (List Nat) × Option (List Nat) × Option AuthErr :=
  match parseTokenChars t.toList with
  | .error e => (0, none, none, some e)
  | .ok (ts, timeBuf, sigBuf) => (ts, some timeBuf, some sigBuf, none)

/-- Modelled from the spec: `auth.VerifyTribeUUID` — parses the token,
recovers the signer from the compact signature over
`signedMsgPrefix ‖ timestampBytes`, and, when `checkTimestamp` is set,
enforces the closed 300-second replay window against `now`: `too early`
when the timestamp exceeds `now`, `too late` when it is below `now - 300`.
Pinned by `TestVerifyTribeUUID` (signature is checked before the window). -/
def VerifyTribeUUID (now : Int) (uuid : String) (checkTimestamp : Bool) :
    String × Option AuthErr :=
  match parseTokenChars uuid.toList with
  | .error e => ("", some e)
  | .ok (ts, timeBuf, sigBuf) =>
    match VerifyAndExtract (some timeBuf) (some sigBuf) with
    | (_, _, some e) => ("", some e)
    | (pubkey, valid, none) =>
      if valid then
        if checkTimestamp then
          if (ts : Int) > now then ("", some .tooEarly)
          else if (ts : Int) < now - 300 then ("", some .tooLate)
          else (pubkey, none)
        else (pubkey, none)
      else ("", none)

/-! ## Free-pass configuration (`auth.IsFreePass`) -/

/-- The process-wide configuration fields read by `IsFreePass`. -/
structure Config where
  SuperAdmins : List String
  AdminDevFreePass : String
  AdminStrings : String
  deriving DecidableEq, Repr

/-- Modelled from the spec: `auth.IsFreePass` — true iff the admin
restriction string is empty, or the super-admin list has exactly one entry
equal to the non-empty configured dev free-pass string. Pinned by
`TestIsFreePass`. -/
def IsFreePass (c : Config) : Bool :=
  (c.SuperAdmins.length == 1 && c.SuperAdmins.headD "" == c.AdminDevFreePass
      && c.AdminDevFreePass != "")
    || (c.AdminStrings == "")

/-! ## Challenge handlers (`db/store.go`)

Direct translation of the `Verify` and `Poll` HTTP handlers and the
challenge cache accessors of `db/store.go`. The transient key/value cache
is a map from keys to stored strings; `none` models a missing (or expired)
entry, matching `GetChallengeCache`, which fails exactly when the key is
not found. The `encoding/json` marshal/unmarshal pair used on
`VerifyPayload` is external library code and is passed in as a codec
parameter; HTTP responses are modelled by their status code and, for
`Poll`, the encoded payload. -/

/-- The `VerifyPayload` struct of `db/store.go`. `Extras`
(`map[string]interface{}` in Go) is modelled as a key/value list. -/
structure VerifyPayload where
  ID : Nat
  Pubkey : String
  ContactKey : String
  Alias : String
  PhotoURL : String
  RouteHint : String
  PriceToMeet : Nat
  JWT : String
  URL : String
  Description : String
  VerificationSignature : String
  Extras : List (String × String)
  TribeJWT : String
  deriving DecidableEq, Repr

/-- The Go zero value `VerifyPayload{}`. -/
def emptyVerifyPayload : VerifyPayload :=
  ⟨0, "", "", "", "", "", 0, "", "", "", "", [], ""⟩

/-- The fields of `db.Person` read by `Poll` (`GetPersonByPubkey` returns
the zero value, with `ID = 0`, when no person matches). -/
structure Person where
  ID : Nat
  Description : String
  Extras : List (String × String)
  Img : String
  OwnerAlias : String
  deriving DecidableEq, Repr

/-- The `encoding/json` marshal/unmarshal pair on `VerifyPayload`, passed
to the handlers as external library code; `none` models a Go error. -/
structure JsonCodec where
  marshal : VerifyPayload → Option String
  unmarshal : String → Option VerifyPayload

/-- The challenge cache: stored string per key, `none` when absent or
expired. -/
def ChallengeCache : Type := String → Option String

/-- `StoreData.SetChallengeCache`: store `v` under `k`. -/
def setChallengeCache (c : ChallengeCache) (k v : String) : ChallengeCache :=
  fun x => if x = k then some v else c x

/-- `StoreData.GetChallengeCache`: the stored value, failing exactly when
the key is not found. -/
def getChallengeCache (c : ChallengeCache) (k : String) : Option String := c k

/-- The `Verify` handler of `db/store.go`: 401 when the challenge is not in
the cache, 406 when the request body does not unmarshal, 401 when the
payload does not re-marshal; otherwise overwrites the payload's `Pubkey`
with the authenticated identity from the request context, stores the
marshalled payload under the challenge key, and responds 200. Result:
(HTTP status, cache after the call). -/
def Verify (codec : JsonCodec) (cache : ChallengeCache)
    (challenge ctxPubkey body : String) : Nat × ChallengeCache :=
  match getChallengeCache cache challenge with
  | none => (401, cache)
  | some _ =>
    match codec.unmarshal body with
    | none => (406, cache)
    | some payload =>
      let payload := { payload with Pubkey := ctxPubkey }
      match codec.marshal payload with
      | none => (401, cache)
      | some marshalled => (200, setChallengeCache cache challenge marshalled)

/-- The `Poll` handler of `db/store.go`: 401 when the challenge is not in
the cache, when the stored value has length at most 10 (still the issuance
timestamp), when it does not unmarshal, or when the unmarshalled payload
has an empty `Pubkey`; otherwise enriches the payload from the person
record for that pubkey, mints a tribe JWT, and responds 200 with the
payload. `db` models `DB.GetPersonByPubkey` and `jwtFor` models
`auth.EncodeJwt`; the handler never writes to the cache (the historical
delete is commented out in the source). Result: (HTTP status, response
payload if any, cache after the call). -/
def Poll (codec : JsonCodec) (db : String → Person) (jwtFor : String → String)
    (cache : ChallengeCache) (challenge : String) :
    Nat × Option VerifyPayload × ChallengeCache :=
  match getChallengeCache cache challenge with
  | none => (401, none, cache)
  | some res =>
    if res.length ≤ 10 then (401, none, cache)
    else
      match codec.unmarshal res with
      | none => (401, none, cache)
      | some pld =>
        if pld.Pubkey = "" then (401, none, cache)
        else
          let existing := db pld.Pubkey
          let pld :=
            if existing.ID > 0 then
              let pld := { pld with
                ID := existing.ID
                Description := existing.Description
                Extras := existing.Extras }
              let pld := if existing.Img ≠ "" then { pld with PhotoURL := existing.Img } else pld
              if existing.OwnerAlias ≠ "" then { pld with Alias := existing.OwnerAlias } else pld
            else pld
          let pld := { pld with TribeJWT := jwtFor pld.Pubkey }
          (200, some pld, cache)

/-! ## Helper lemmas shared by the claim theorems -/

/-- `Poll` never writes to, overwrites, or deletes from the cache. -/
theorem poll_cache_unchanged (codec : JsonCodec) (db : String → Person)
    (jwtFor : String → String) (cache : ChallengeCache) (challenge : String) :
    (Poll codec db jwtFor cache challenge).2.2 = cache := by
  unfold Poll
  rcases getChallengeCache cache challenge with _ | res
  · rfl
  · dsimp only
    by_cases hlen : res.length ≤ 10
    · rw [if_pos hlen]
    · rw [if_neg hlen]
      rcases codec.unmarshal res with _ | pld
      · rfl
      · dsimp only
        by_cases hpk : pld.Pubkey = ""
        · rw [if_pos hpk]
        · rw [if_neg hpk]

/-! ## Claim theorems -/

/-- C4: `IsFreePass` returns true iff the admin-restriction string is
empty, or the super-admin list has exactly one entry equal to a non-empty
configured dev free-pass string; it returns false in every other
configuration. -/
theorem isFreePass_iff (c : Config) :
    IsFreePass c = true ↔
      c.AdminStrings = "" ∨
        (c.SuperAdmins = [c.AdminDevFreePass] ∧ c.AdminDevFreePass ≠ "") := by
  rw [IsFreePass, Bool.or_eq_true, Bool.and_eq_true, Bool.and_eq_true,
    beq_iff_eq, beq_iff_eq, beq_iff_eq, bne_iff_ne]
  constructor
  · rintro (⟨⟨hlen, hhead⟩, hne⟩ | h)
    · right
      rcases List.length_eq_one.mp hlen with ⟨a, ha⟩
      rw [ha] at hhead ⊢
      rw [List.headD_cons] at hhead
      rw [hhead]
      exact ⟨rfl, hne⟩
    · left; exact h
  · rintro (h | ⟨hsa, hne⟩)
    · right; exact h
    · left
      rw [hsa]
      exact ⟨⟨rfl, rfl⟩, hne⟩

/-- C1: for every non-nil message and every keypair, `Sign` produces a
65-byte signature that `VerifyAndExtract` verifies back to the hex encoding
of the keypair's compressed public key with `valid = true` and no error. -/
theorem sign_verifyAndExtract_roundtrip (m : List Nat) (k : KeyPair) :
    ∃ sig,
      Sign (some m) k = (some sig, none) ∧ sig.length = 65 ∧
        VerifyAndExtract (some m) (some sig) =
          (hexEncodeToString (pubKeyCompressed k), true, none) := by
  refine ⟨_, rfl, length_signCompact _ _, ?_⟩
  simp only [VerifyAndExtract, recoverCompact_signCompact]

/-- C2 counterexample: at message `[116]`, an absent (nil) signature makes
`VerifyAndExtract` fail with the generic `bad` error, not with the
`invalid compact signature size` error the claim names. -/
theorem verifyAndExtract_nil_sig_counterexample :
    VerifyAndExtract (some [116]) none = ("", false, some AuthErr.badInput) ∧
      AuthErr.badInput ≠ AuthErr.invalidCompactSigSize ∧
      errMessage AuthErr.badInput ≠ errMessage AuthErr.invalidCompactSigSize := by
  refine ⟨rfl, by decide, by decide⟩

/-- C2 amended: a present (non-nil) signature that is not exactly 65 bytes
makes `VerifyAndExtract` fail with `invalid compact signature size`, with
empty identity and `valid = false`; an absent (nil) signature or a nil
message instead fails earlier with the generic `bad` error, also with
empty identity and `valid = false`. -/
theorem verifyAndExtract_failure_modes (m s : List Nat) (h : s.length ≠ 65) :
    VerifyAndExtract (some m) (some s) =
        ("", false, some AuthErr.invalidCompactSigSize) ∧
      (∀ msg : Option (List Nat),
        VerifyAndExtract msg none = ("", false, some AuthErr.badInput)) ∧
      (∀ sig : Option (List Nat),
        VerifyAndExtract none sig = ("", false, some AuthErr.badInput)) := by
  refine ⟨?_, ?_, ?_⟩
  · simp only [VerifyAndExtract, recoverCompact, if_pos h]
  · intro msg
    rcases msg with _ | m' <;> rfl
  · intro sig
    rcases sig with _ | s' <;> rfl

/-- Witness for C2's amended theorem at the empty signature. -/
theorem verifyAndExtract_failure_modes_witness :
    ([] : List Nat).length ≠ 65 ∧
      VerifyAndExtract (some [116]) (some []) =
        ("", false, some AuthErr.invalidCompactSigSize) :=
  ⟨by decide, (verifyAndExtract_failure_modes [116] [] (by decide)).1⟩

/-- C5: `Poll` responds 401 exactly when the cache entry is absent, or the
cached value still has length at most 10 (the threshold separating the
initial timestamp from a submitted payload), or the cached payload fails
to deserialize, or the deserialized payload has an empty pubkey; in every
other case it responds 200. -/
theorem poll_unauthorized_iff (codec : JsonCodec) (db : String → Person)
    (jwtFor : String → String) (cache : ChallengeCache) (challenge : String) :
    ((Poll codec db jwtFor cache challenge).1 = 401 ∨
        (Poll codec db jwtFor cache challenge).1 = 200) ∧
      ((Poll codec db jwtFor cache challenge).1 = 401 ↔
        getChallengeCache cache challenge = none ∨
          ∃ res, getChallengeCache cache challenge = some res ∧
            (res.length ≤ 10 ∨ codec.unmarshal res = none ∨
              ∃ pld, codec.unmarshal res = some pld ∧ pld.Pubkey = "")) := by
  unfold Poll getChallengeCache
  rcases hres : cache challenge with _ | res
  · exact ⟨Or.inl rfl, by simp⟩
  · simp only [Option.some.injEq]
    by_cases hlen : res.length ≤ 10
    · rw [if_pos hlen]
      refine ⟨Or.inl rfl, ⟨fun _ => Or.inr ⟨res, rfl, Or.inl hlen⟩, fun _ => rfl⟩⟩
    · rw [if_neg hlen]
      rcases hum : codec.unmarshal res with _ | pld
      · refine ⟨Or.inl rfl, ⟨fun _ => Or.inr ⟨res, rfl, Or.inr (Or.inl hum)⟩, fun _ => rfl⟩⟩
      · dsimp only
        by_cases hpk : pld.Pubkey = ""
        · rw [if_pos hpk]
          exact ⟨Or.inl rfl, ⟨fun _ => Or.inr ⟨res, rfl, Or.inr (Or.inr ⟨pld, hum, hpk⟩)⟩,
            fun _ => rfl⟩⟩
        · rw [if_neg hpk]
          refine ⟨Or.inr rfl, ⟨fun h => ?_, fun h => ?_⟩⟩
          · simp at h
          · exfalso
            rcases h with h | ⟨res', hres', h⟩
            · exact Option.noConfusion h
            · cases hres'
              rcases h with h | h | ⟨pld', hpld', hpk'⟩
              · exact hlen h
              · rw [hum] at h; exact Option.noConfusion h
              · rw [hum] at hpld'
                cases Option.some.inj hpld'
                exact hpk hpk' 

/-- C6: on every failing execution of `Verify` (challenge not found,
unparseable body, marshalling failure) the cache is left unchanged, and
`Poll` never mutates the cache at all — in particular not on its error
paths. -/
theorem failing_handlers_leave_cache_unchanged (codec : JsonCodec)
    (db : String → Person) (jwtFor : String → String) (cache : ChallengeCache)
    (challenge ctxPubkey body : String)
    (hfail : (Verify codec cache challenge ctxPubkey body).1 ≠ 200) :
    (Verify codec cache challenge ctxPubkey body).2 = cache ∧
      (Poll codec db jwtFor cache challenge).2.2 = cache := by
  refine ⟨?_, poll_cache_unchanged codec db jwtFor cache challenge⟩
  unfold Verify at hfail ⊢
  rcases hg : getChallengeCache cache challenge with _ | res
  · rfl
  · rcases hum : codec.unmarshal body with _ | payload
    · rfl
    · rcases hm : codec.marshal { payload with Pubkey := ctxPubkey } with _ | m
      · simp only [hm]
      · exfalso
        apply hfail
        simp only [hg, hum, hm]

/-- A person record with `ID = 0`, the Go zero value returned by
`GetPersonByPubkey` when no row matches. -/
def zeroPerson : Person := ⟨0, "", [], "", ""⟩

/-- A challenge cache holding no entry at all. -/
def emptyCache : ChallengeCache := fun _ => none

/-- A codec whose marshal and unmarshal both fail, for exercising the
handlers' error paths at concrete inputs. -/
def nullCodec : JsonCodec := ⟨fun _ => none, fun _ => none⟩

/-- Witness for C6 at a concrete failing `Verify`: the challenge is absent
from the empty cache, the handler does not answer 200, and the cache comes
back unchanged. -/
theorem failing_handlers_leave_cache_unchanged_witness :
    (Verify nullCodec emptyCache "ch" "" "body").1 ≠ 200 ∧
      (Verify nullCodec emptyCache "ch" "" "body").2 = emptyCache ∧
        (Poll nullCodec (fun _ => zeroPerson) (fun _ => "") emptyCache "ch").2.2 =
          emptyCache := by
  refine ⟨by decide, ?_⟩
  exact failing_handlers_leave_cache_unchanged nullCodec (fun _ => zeroPerson)
    (fun _ => "") emptyCache "ch" "" "body" (by decide)

/-- C9: after a successful `Verify` stored the result under the challenge
key, `Poll` leaves the cache entry in place (no explicit delete — expiry is
time-based only), so a second poll reads the same cache state and returns
exactly the same status and payload as the first. -/
theorem poll_replay_stable (codec : JsonCodec) (db : String → Person)
    (jwtFor : String → String) (cache cacheAfter : ChallengeCache)
    (challenge ctxPubkey body : String)
    (hok : Verify codec cache challenge ctxPubkey body = (200, cacheAfter)) :
    (∃ m, getChallengeCache cacheAfter challenge = some m) ∧
      (Poll codec db jwtFor cacheAfter challenge).2.2 = cacheAfter ∧
        Poll codec db jwtFor ((Poll codec db jwtFor cacheAfter challenge).2.2) challenge =
          Poll codec db jwtFor cacheAfter challenge := by
  refine ⟨?_, poll_cache_unchanged codec db jwtFor cacheAfter challenge, ?_⟩
  · unfold Verify at hok
    rcases hg : getChallengeCache cache challenge with _ | res
    · simp only [hg] at hok
      have h1 : (401 : Nat) = 200 := congrArg Prod.fst hok
      exact absurd h1 (by decide)
    · simp only [hg] at hok
      rcases hum : codec.unmarshal body with _ | payload
      · simp only [hum] at hok
        have h1 : (406 : Nat) = 200 := congrArg Prod.fst hok
        exact absurd h1 (by decide)
      · simp only [hum] at hok
        rcases hm : codec.marshal { payload with Pubkey := ctxPubkey } with _ | m
        · simp only [hm] at hok
          have h1 : (401 : Nat) = 200 := congrArg Prod.fst hok
          exact absurd h1 (by decide)
        · simp only [hm] at hok
          have hc : setChallengeCache cache challenge m = cacheAfter :=
            congrArg Prod.snd hok
          refine ⟨m, ?_⟩
          rw [← hc]
          unfold getChallengeCache setChallengeCache
          rw [if_pos rfl]
  · rw [poll_cache_unchanged codec db jwtFor cacheAfter challenge]

/-- A codec that accepts every body as the fixed payload with pubkey `"x"`
and marshals everything to a fixed string longer than 10 bytes. -/
def stubCodec : JsonCodec :=
  ⟨fun _ => some "0123456789ab", fun _ => some { emptyVerifyPayload with Pubkey := "x" }⟩

/-- A cache holding the issuance timestamp for challenge `"ch"`. -/
def issuedCache : ChallengeCache := fun k => if k = "ch" then some "1700000000" else none

/-- Witness for C9 at a concrete successful `Verify` into `issuedCache`. -/
theorem poll_replay_stable_witness :
    Verify stubCodec issuedCache "ch" "pk" "body" =
        (200, setChallengeCache issuedCache "ch" "0123456789ab") ∧
      ((∃ m, getChallengeCache (setChallengeCache issuedCache "ch" "0123456789ab") "ch" =
          some m) ∧
        (Poll stubCodec (fun _ => zeroPerson) (fun _ => "jwt")
            (setChallengeCache issuedCache "ch" "0123456789ab") "ch").2.2 =
          setChallengeCache issuedCache "ch" "0123456789ab" ∧
          Poll stubCodec (fun _ => zeroPerson) (fun _ => "jwt")
              ((Poll stubCodec (fun _ => zeroPerson) (fun _ => "jwt")
                  (setChallengeCache issuedCache "ch" "0123456789ab") "ch").2.2) "ch" =
            Poll stubCodec (fun _ => zeroPerson) (fun _ => "jwt")
              (setChallengeCache issuedCache "ch" "0123456789ab") "ch") :=
  ⟨rfl, poll_replay_stable stubCodec (fun _ => zeroPerson) (fun _ => "jwt")
    issuedCache (setChallengeCache issuedCache "ch" "0123456789ab") "ch" "pk" "body" rfl⟩

/-- C10: the result `Verify` stores is independent of the request body's
pubkey field — two bodies whose payloads differ only in `Pubkey` produce
identical responses and identical cache states, because the handler always
overwrites `Pubkey` with the identity from the request context; and when
that context identity is empty, the stored payload has an empty pubkey, so
any later `Poll` of the challenge answers 401. -/
theorem verify_pubkey_field_irrelevant (codec : JsonCodec) (db : String → Person)
    (jwtFor : String → String) (cache : ChallengeCache)
    (challenge ctxPubkey b1 b2 : String) (p1 p2 : VerifyPayload)
    (h1 : codec.unmarshal b1 = some p1) (h2 : codec.unmarshal b2 = some p2)
    (hdiff : p2 = { p1 with Pubkey := p2.Pubkey }) :
    Verify codec cache challenge ctxPubkey b1 =
        Verify codec cache challenge ctxPubkey b2 ∧
      (ctxPubkey = "" →
        ∀ cacheAfter, Verify codec cache challenge ctxPubkey b1 = (200, cacheAfter) →
          (∀ s, codec.marshal { p1 with Pubkey := "" } = some s →
            codec.unmarshal s = some { p1 with Pubkey := "" }) →
          (Poll codec db jwtFor cacheAfter challenge).1 = 401) := by
  have hkey : ({ p1 with Pubkey := ctxPubkey } : VerifyPayload) =
      { p2 with Pubkey := ctxPubkey } := by
    rw [hdiff]
  constructor
  · unfold Verify
    rcases hg : getChallengeCache cache challenge with _ | res
    · rfl
    · simp only [h1, h2, hkey]
  · intro hctx cacheAfter hver hround
    subst hctx
    unfold Verify at hver
    rcases hg : getChallengeCache cache challenge with _ | res
    · simp only [hg] at hver
      have h401 : (401 : Nat) = 200 := congrArg Prod.fst hver
      exact absurd h401 (by decide)
    · simp only [hg, h1] at hver
      rcases hm : codec.marshal { p1 with Pubkey := "" } with _ | m
      · simp only [hm] at hver
        have h401 : (401 : Nat) = 200 := congrArg Prod.fst hver
        exact absurd h401 (by decide)
      · simp only [hm] at hver
        have hc : setChallengeCache cache challenge m = cacheAfter :=
          congrArg Prod.snd hver
        have hlook : getChallengeCache cacheAfter challenge = some m := by
          rw [← hc]
          unfold getChallengeCache setChallengeCache
          rw [if_pos rfl]
        unfold Poll
        rw [hlook]
        dsimp only
        by_cases hlen : m.length ≤ 10
        · rw [if_pos hlen]
        · rw [if_neg hlen]
          rw [hround m hm]
          dsimp only
          rw [if_pos rfl]

/-- A codec that reads body `"b1"` as the payload with pubkey `"x"` and
any other body as the zero payload, marshalling everything to a fixed
string longer than 10 bytes. -/
def pairCodec : JsonCodec :=
  ⟨fun _ => some "0123456789ab",
   fun s => if s = "b1" then some { emptyVerifyPayload with Pubkey := "x" }
            else some emptyVerifyPayload⟩

/-- Witness for C10: bodies `"b1"` and `"b2"` differ only in the payload's
pubkey field; with an empty context identity the later poll answers 401. -/
theorem verify_pubkey_field_irrelevant_witness :
    pairCodec.unmarshal "b1" = some { emptyVerifyPayload with Pubkey := "x" } ∧
      pairCodec.unmarshal "b2" = some emptyVerifyPayload ∧
      emptyVerifyPayload =
        { { emptyVerifyPayload with Pubkey := "x" } with
            Pubkey := emptyVerifyPayload.Pubkey } ∧
      (Poll pairCodec (fun _ => zeroPerson) (fun _ => "jwt")
          (setChallengeCache issuedCache "ch" "0123456789ab") "ch").1 = 401 := by
  refine ⟨by decide, by decide, by decide, ?_⟩
  refine (verify_pubkey_field_irrelevant pairCodec (fun _ => zeroPerson)
    (fun _ => "jwt") issuedCache "ch" "" "b1" "b2"
    { emptyVerifyPayload with Pubkey := "x" } emptyVerifyPayload
    (by decide) (by decide) (by decide)).2 rfl
    (setChallengeCache issuedCache "ch" "0123456789ab") rfl ?_
  intro s h
  cases Option.some.inj h
  decide

/-- Every error the base64 decoder produces is a corrupt-input error
carrying a byte offset. -/
theorem b64DecodeQuads_error_corrupt (pos : Nat) (l : List Char) :
    ∀ e, b64DecodeQuads pos l = .error e → ∃ i, e = AuthErr.corruptInput i := by
  induction pos, l using b64DecodeQuads.induct
  case case10 =>
    intro e h
    rename_i e' herr ih
    simp [b64DecodeQuads, Except.error.injEq, *] at h
    obtain ⟨i, rfl⟩ := ih e' herr
    exact ⟨i, h.symm⟩
  case case12 t pos hnil h4 =>
    intro e h
    rcases t with _ | ⟨a, _ | ⟨b, _ | ⟨c, _ | ⟨d, r⟩⟩⟩⟩
    · exact (hnil rfl).elim
    · have h' : Except.error (AuthErr.corruptInput pos) = Except.error e := h
      exact ⟨pos, (Except.error.inj h').symm⟩
    · have h' : Except.error (AuthErr.corruptInput pos) = Except.error e := h
      exact ⟨pos, (Except.error.inj h').symm⟩
    · have h' : Except.error (AuthErr.corruptInput pos) = Except.error e := h
      exact ⟨pos, (Except.error.inj h').symm⟩
    · exact (h4 a b c d r rfl).elim
  all_goals intro e h
  all_goals simp [b64DecodeQuads, Except.error.injEq, *] at h
  all_goals exact ⟨_, h.symm⟩

/-- C7: `ParseTokenString` propagates base64 decode errors unchanged (they
are always corrupt-input errors carrying the byte offset); any input whose
decoded content is 4 bytes or fewer (including the empty string) fails
with the too-short error regardless of content; and on success the first 4
decoded bytes become the big-endian unsigned 32-bit timestamp while the
remaining bytes become the signature, with no error. -/
theorem parseTokenString_cases (t : String) :
    (∀ e, b64DecodeChars (tokenBody t.toList) = .error e →
      (∃ i, e = AuthErr.corruptInput i) ∧
        ParseTokenString t = (0, none, none, some e)) ∧
      (∀ l, b64DecodeChars (tokenBody t.toList) = .ok l → l.length ≤ 4 →
        ParseTokenString t = (0, none, none, some AuthErr.tooShort)) ∧
      (∀ l, b64DecodeChars (tokenBody t.toList) = .ok l → 4 < l.length →
        (ParseTokenString t).1 = beUint32 (l.take 4) ∧
          (ParseTokenString t).2.2.1 = some (l.drop 4) ∧
            (ParseTokenString t).2.2.2 = none) := by
  refine ⟨?_, ?_, ?_⟩
  · intro e he
    refine ⟨b64DecodeQuads_error_corrupt 0 _ e he, ?_⟩
    unfold ParseTokenString parseTokenChars
    rw [he]
  · intro l hl hlen
    unfold ParseTokenString parseTokenChars
    rw [hl]
    dsimp only
    rw [if_pos hlen]
  · intro l hl hlen
    unfold ParseTokenString parseTokenChars
    rw [hl]
    dsimp only
    rw [if_neg (by omega)]
    exact ⟨rfl, rfl, rfl⟩

/-- Witness for C7 at the empty token: it decodes to the empty byte string
and is rejected as too short. -/
theorem parseTokenString_cases_witness :
    b64DecodeChars (tokenBody "".toList) = .ok [] ∧
      ParseTokenString "" = (0, none, none, some AuthErr.tooShort) :=
  ⟨rfl, (parseTokenString_cases "").2.1 [] rfl (by decide)⟩

/-- An encoded byte string never starts with the separator character. -/
theorem hasSeparator_b64EncodeBytes (l : List Nat) (h : bytesOk l) (hne : l ≠ []) :
    hasSeparator (b64EncodeBytes l) = false := by
  rcases l with _ | ⟨b0, rest⟩
  · exact absurd rfl hne
  · have hb0 : b0 < 256 := h b0 (by simp)
    have hdot : b64Char (b0 / 4) ≠ '.' := b64Char_ne_dot _ (by omega)
    rcases rest with _ | ⟨b1, rest2⟩
    · simp [hasSeparator, b64EncodeBytes, hdot]
    · rcases rest2 with _ | ⟨b2, rest3⟩
      · simp [hasSeparator, b64EncodeBytes, hdot]
      · simp [hasSeparator, b64EncodeBytes, hdot]

/-- Prepending the separator to a string puts exactly one `'.'` in front of
its characters. -/
theorem toList_dot_append (s : String) : ("." ++ s).toList = '.' :: s.toList := by
  show ("." ++ s).data = '.' :: s.data
  rw [String.data_append]
  rfl

/-- C8: parsing an encoded token without the leading separator returns the
raw 4 timestamp bytes in the second result slot, while parsing the same
token with the separator returns the URL-safe base64 text of those bytes
instead; the parsed timestamp and the signature bytes agree in both cases,
and neither parse errors. -/
theorem parseTokenString_separator_artifact (l : List Nat) (hok : bytesOk l)
    (hlen : 4 < l.length) :
    ParseTokenString (b64EncodeString l) =
        (beUint32 (l.take 4), some (l.take 4), some (l.drop 4), none) ∧
      ParseTokenString ("." ++ b64EncodeString l) =
        (beUint32 (l.take 4), some ((b64EncodeBytes (l.take 4)).map Char.toNat),
          some (l.drop 4), none) := by
  have hne : l ≠ [] := by
    intro hnil
    rw [hnil] at hlen
    simp at hlen
  have hsep : hasSeparator (b64EncodeString l).toList = false :=
    hasSeparator_b64EncodeBytes l hok hne
  have hdec : b64DecodeChars (b64EncodeBytes l) = .ok l :=
    b64DecodeQuads_b64EncodeBytes l hok 0
  constructor
  · unfold ParseTokenString parseTokenChars tokenBody
    rw [hsep]
    simp only [Bool.false_eq_true, if_false]
    have : (b64EncodeString l).toList = b64EncodeBytes l := rfl
    rw [this, hdec]
    dsimp only
    rw [if_neg (by omega)]
  · have htl : ("." ++ b64EncodeString l).toList = '.' :: b64EncodeBytes l :=
      toList_dot_append (b64EncodeString l)
    have hsep2 : hasSeparator ("." ++ b64EncodeString l).toList = true := by
      rw [htl]
      rfl
    unfold ParseTokenString parseTokenChars tokenBody
    rw [hsep2]
    simp only [if_true]
    rw [htl]
    simp only [List.tail_cons]
    rw [hdec]
    dsimp only
    rw [if_neg (by omega)]

/-- Witness for C8 at the five-byte token `[0,0,0,1,115]` (timestamp 1,
signature byte `s`). -/
theorem parseTokenString_separator_artifact_witness :
    bytesOk [0, 0, 0, 1, 115] ∧ 4 < ([0, 0, 0, 1, 115] : List Nat).length ∧
      ParseTokenString (b64EncodeString [0, 0, 0, 1, 115]) =
          (1, some [0, 0, 0, 1], some [115], none) ∧
        ParseTokenString ("." ++ b64EncodeString [0, 0, 0, 1, 115]) =
          (1, some ((b64EncodeBytes [0, 0, 0, 1]).map Char.toNat), some [115], none) := by
  refine ⟨by decide, by decide, ?_⟩
  have h := parseTokenString_separator_artifact [0, 0, 0, 1, 115] (by decide) (by decide)
  exact h

theorem bytesOk_append (a b : List Nat) (ha : bytesOk a) (hb : bytesOk b) :
    bytesOk (a ++ b) := by
  intro x hx
  rcases List.mem_append.mp hx with h | h
  · exact ha x h
  · exact hb x h

/-- A well-formed tribe token for timestamp `ts` signed by keypair `k`: the
URL-safe base64 encoding of the 4 big-endian timestamp bytes followed by
the 65-byte compact signature over `signedMsgPrefix ‖ timestampBytes`,
exactly as `TestVerifyTribeUUID`'s `createToken` builds it. -/
def makeTribeToken (k : KeyPair) (ts : Nat) : String :=
  b64EncodeString
    (putUint32 ts ++ signCompact k (doubleHashB (signedMsgPrefix ++ putUint32 ts)))

/-- Parsing a well-formed tribe token yields its timestamp, timestamp bytes
and signature. -/
theorem parseTokenChars_makeTribeToken (k : KeyPair) (ts : Nat)
    (hts : ts < 4294967296) :
    parseTokenChars (makeTribeToken k ts).toList =
      .ok (ts, putUint32 ts,
        signCompact k (doubleHashB (signedMsgPrefix ++ putUint32 ts))) := by
  set sig := signCompact k (doubleHashB (signedMsgPrefix ++ putUint32 ts)) with hsig
  have hokb : bytesOk (putUint32 ts ++ sig) :=
    bytesOk_append _ _ (bytesOk_putUint32 ts)
      (bytesOk_signCompact k _ (bytesOk_doubleHashB _))
  have hlentok : (putUint32 ts ++ sig).length = 69 := by
    rw [List.length_append, length_signCompact]
    rfl
  have hne : (putUint32 ts ++ sig) ≠ [] := by
    intro h
    rw [h] at hlentok
    simp at hlentok
  have hsep : hasSeparator (makeTribeToken k ts).toList = false :=
    hasSeparator_b64EncodeBytes _ hokb hne
  have hdec : b64DecodeChars (b64EncodeBytes (putUint32 ts ++ sig)) =
      .ok (putUint32 ts ++ sig) :=
    b64DecodeQuads_b64EncodeBytes _ hokb 0
  have htake : (putUint32 ts ++ sig).take 4 = putUint32 ts := by
    have h4 : (4 : Nat) = (putUint32 ts).length := rfl
    rw [h4, List.take_left]
  have hdrop : (putUint32 ts ++ sig).drop 4 = sig := by
    have h4 : (4 : Nat) = (putUint32 ts).length := rfl
    rw [h4, List.drop_left]
  unfold parseTokenChars tokenBody
  rw [hsep]
  simp only [Bool.false_eq_true, if_false]
  have htl : (makeTribeToken k ts).toList = b64EncodeBytes (putUint32 ts ++ sig) := rfl
  rw [htl, hdec]
  dsimp only
  rw [if_neg (by omega)]
  rw [htake, hdrop, beUint32_putUint32 ts hts]

/-- C3: for a well-formed tribe token with embedded timestamp `ts`,
verification with the replay-window check admits (returning the signer's
hex identity) iff `now - 300 ≤ ts ≤ now`, fails with `too early` iff
`ts > now`, and fails with `too late` iff `ts < now - 300`; in particular
`ts = now - 300` admits and `ts = now - 301` is rejected. -/
theorem verifyTribeUUID_replay_window (k : KeyPair) (ts : Nat) (now : Int)
    (hts : ts < 4294967296) :
    (VerifyTribeUUID now (makeTribeToken k ts) true =
        (hexEncodeToString (pubKeyCompressed k), none) ↔
      now - 300 ≤ (ts : Int) ∧ (ts : Int) ≤ now) ∧
      (VerifyTribeUUID now (makeTribeToken k ts) true = ("", some AuthErr.tooEarly) ↔
        now < (ts : Int)) ∧
      (VerifyTribeUUID now (makeTribeToken k ts) true = ("", some AuthErr.tooLate) ↔
        (ts : Int) < now - 300) := by
  have hred : VerifyTribeUUID now (makeTribeToken k ts) true =
      if (ts : Int) > now then ("", some AuthErr.tooEarly)
      else if (ts : Int) < now - 300 then ("", some AuthErr.tooLate)
      else (hexEncodeToString (pubKeyCompressed k), none) := by
    unfold VerifyTribeUUID
    rw [parseTokenChars_makeTribeToken k ts hts]
    dsimp only
    simp only [VerifyAndExtract, recoverCompact_signCompact]
    simp only [if_true]
  rw [hred]
  by_cases h1 : (ts : Int) > now
  · rw [if_pos h1]
    refine ⟨⟨fun h => by simp at h, fun h => absurd h1 (by omega)⟩,
      ⟨fun _ => h1, fun _ => rfl⟩,
      ⟨fun h => by simp at h, fun h => absurd h1 (by omega)⟩⟩
  · rw [if_neg h1]
    by_cases h2 : (ts : Int) < now - 300
    · rw [if_pos h2]
      refine ⟨⟨fun h => by simp at h, fun h => absurd h2 (by omega)⟩,
        ⟨fun h => by simp at h, fun hh => absurd hh h1⟩,
        ⟨fun _ => h2, fun _ => rfl⟩⟩
    · rw [if_neg h2]
      refine ⟨⟨fun _ => by omega, fun _ => rfl⟩,
        ⟨fun h => by simp at h, fun hh => absurd hh h1⟩,
        ⟨fun h => by simp at h, fun hh => absurd hh h2⟩⟩

/-- Witness for C3 at `now = 1000`: the boundary timestamp `700 = now - 300`
admits and `699 = now - 301` is rejected as too late. -/
theorem verifyTribeUUID_replay_window_witness :
    (700 : Nat) < 4294967296 ∧
      (VerifyTribeUUID 1000 (makeTribeToken ⟨5⟩ 700) true =
          (hexEncodeToString (pubKeyCompressed ⟨5⟩), none) ↔
        (1000 : Int) - 300 ≤ (700 : Nat) ∧ ((700 : Nat) : Int) ≤ 1000) ∧
      (VerifyTribeUUID 1000 (makeTribeToken ⟨5⟩ 700) true = ("", some AuthErr.tooEarly) ↔
        (1000 : Int) < (700 : Nat)) ∧
      (VerifyTribeUUID 1000 (makeTribeToken ⟨5⟩ 700) true = ("", some AuthErr.tooLate) ↔
        ((700 : Nat) : Int) < 1000 - 300) :=
  ⟨by decide, verifyTribeUUID_replay_window ⟨5⟩ 700 1000 (by decide)⟩

end SphinxAuth
